import Mathlib

/-!
Verification of the orbit-sandbox simulation engine (`src/script.js`) against its
specification. The JavaScript engine is shallowly embedded over the real numbers:
float64 arithmetic is modelled by `ℝ`, `Math.sqrt` by `Real.sqrt`, `Math.atan2` by
the complex argument, and the mutable object graph by explicit state passing.
-/

namespace Orbits

/-- Gravitational constant from the source (`const G = 6.674e-11`). -/
noncomputable def G : ℝ := 6.674e-11

/-- Maximum number of trail points kept per body (`const MAX_TRAILS = 150`). -/
def MAX_TRAILS : ℕ := 150

/-- Shallow embedding of the source's `Vector` class. -/
@[ext]
structure Vec where
  x : ℝ
  y : ℝ

namespace Vec

/-- Embedding of `Vector.prototype.distanceTo`. -/
noncomputable def distanceTo (v w : Vec) : ℝ :=
  Real.sqrt ((v.x - w.x) ^ 2 + (v.y - w.y) ^ 2)

/-- Embedding of `Vector.prototype.magnitude`. -/
noncomputable def magnitude (v : Vec) : ℝ :=
  Real.sqrt (v.x ^ 2 + v.y ^ 2)

instance : Zero Vec := ⟨⟨0, 0⟩⟩

instance : Add Vec := ⟨fun a b => ⟨a.x + b.x, a.y + b.y⟩⟩

instance : Neg Vec := ⟨fun a => ⟨-a.x, -a.y⟩⟩

@[simp] theorem zero_x : (0 : Vec).x = 0 := rfl

@[simp] theorem zero_y : (0 : Vec).y = 0 := rfl

@[simp] theorem add_x (a b : Vec) : (a + b).x = a.x + b.x := rfl

@[simp] theorem add_y (a b : Vec) : (a + b).y = a.y + b.y := rfl

@[simp] theorem neg_x (a : Vec) : (-a).x = -a.x := rfl

@[simp] theorem neg_y (a : Vec) : (-a).y = -a.y := rfl

instance : AddCommGroup Vec where
  add_assoc a b c := by ext <;> simp <;> ring
  zero_add a := by ext <;> simp
  add_zero a := by ext <;> simp
  add_comm a b := by ext <;> simp <;> ring
  neg_add_cancel a := by ext <;> simp
  nsmul := nsmulRec
  zsmul := zsmulRec

end Vec

/-- Embedding of the source's `Rectangle` class. -/
structure Rectangle where
  left : ℝ
  top : ℝ
  right : ℝ
  bottom : ℝ

/-- Embedding of the `width` getter of `Rectangle`. -/
def Rectangle.width (r : Rectangle) : ℝ := r.right - r.left

/-- Embedding of the `height` getter of `Rectangle`. -/
def Rectangle.height (r : Rectangle) : ℝ := r.bottom - r.top

/-- Embedding of the source's `TrailLocation` class. -/
structure TrailLocation where
  x : ℝ
  y : ℝ
  timestamp : ℝ

/-- Embedding of the source's `Trail` class: recent positions, newest last. -/
@[ext]
structure Trail where
  points : List TrailLocation

/-- Embedding of `Trail.prototype.add`: push the new point, then drop the oldest
point when the bound `MAX_TRAILS` is exceeded. -/
def Trail.add (t : Trail) (p : TrailLocation) : Trail :=
  let points := t.points ++ [p]
  ⟨if MAX_TRAILS < points.length then points.tail else points⟩

/-- Embedding of the source's `PointMass` class; only fields the engine reads are
kept (`color`, `name` and `uninteractable` are opaque display payload). -/
@[ext]
structure PointMass where
  mass : ℝ
  position : Vec
  velocity : Vec
  netForce : Vec
  radius : ℝ
  locked : Bool
  trail : Trail

/-- Default field values from the `PointMass` constructor. -/
instance : Inhabited PointMass :=
  ⟨{ mass := 1, position := 0, velocity := 0, netForce := 0, radius := 10,
     locked := false, trail := ⟨[]⟩ }⟩

/-- Embedding of `PointMass.prototype.updateKinematics` (source lines 187-201):
semi-implicit Euler, the new velocity is used to advance the position. -/
noncomputable def PointMass.updateKinematics (p : PointMass) (timeStep : ℝ) : PointMass :=
  let accelerationX := p.netForce.x / p.mass
  let accelerationY := p.netForce.y / p.mass
  let velocity : Vec :=
    ⟨p.velocity.x + accelerationX * timeStep, p.velocity.y + accelerationY * timeStep⟩
  { p with
    velocity := velocity
    position := ⟨p.position.x + velocity.x * timeStep, p.position.y + velocity.y * timeStep⟩ }

/-- Componentwise force accumulation (`netForce.x += fx; netForce.y += fy`). -/
def PointMass.addForce (p : PointMass) (f : Vec) : PointMass :=
  { p with netForce := ⟨p.netForce.x + f.x, p.netForce.y + f.y⟩ }

/-- Embedding of the force-reset loop of `updateObjects` (source lines 644-648). -/
def PointMass.zeroNetForce (p : PointMass) : PointMass :=
  { p with netForce := ⟨0, 0⟩ }

/-- Appending the current position to a body's trail (`updateTrails` loop body,
source lines 713-716). -/
def PointMass.addTrailPoint (timestamp : ℝ) (o : PointMass) : PointMass :=
  { o with trail := o.trail.add ⟨o.position.x, o.position.y, timestamp⟩ }

/-- Embedding of `Math.atan2 y x`: the argument of the complex number `x + y*I`,
valued in `(-π, π]`, with `atan2 0 0 = 0` as in JavaScript. -/
noncomputable def atan2 (y x : ℝ) : ℝ := Complex.arg ⟨x, y⟩

/-- Collision-penalty ("spring") force increment received by `objectA` from one
overlapping pair, exactly as computed in source lines 662-677. -/
noncomputable def springDelta (objectA objectB : PointMass) : Vec :=
  let distance := objectA.position.distanceTo objectB.position
  let deltaX := objectB.position.x - objectA.position.x
  let deltaY := objectB.position.y - objectA.position.y
  let nonCollidingDistance := objectA.radius + objectB.radius
  let penetration := nonCollidingDistance - distance
  let angle := atan2 (-deltaY) (-deltaX)
  let lesserMass := min objectA.mass objectB.mass
  let acceleration := 1 * penetration
  let force := lesserMass * acceleration
  ⟨force * Real.cos angle, force * Real.sin angle⟩

/-- Gravitational force increment received by `objectA` from one pair, exactly as
computed in source lines 686-695. -/
noncomputable def gravityDelta (objectA objectB : PointMass) : Vec :=
  let distance := objectA.position.distanceTo objectB.position
  let deltaX := objectB.position.x - objectA.position.x
  let deltaY := objectB.position.y - objectA.position.y
  let gravityMagnitude := G * objectA.mass * objectB.mass / distance ^ 2
  ⟨deltaX * gravityMagnitude / distance, deltaY * gravityMagnitude / distance⟩

/-- One iteration of the inner pair loop of `updateObjects` (source lines 653-702):
a zero-distance pair is skipped; otherwise the spring force (when the circles
overlap) and gravity are added to A and subtracted from B. -/
noncomputable def interactPair (objectA objectB : PointMass) : PointMass × PointMass :=
  let distance := objectA.position.distanceTo objectB.position
  if distance = 0 then (objectA, objectB)
  else
    let afterSpring :=
      if distance < objectA.radius + objectB.radius then
        (objectA.addForce (springDelta objectA objectB),
         objectB.addForce (-springDelta objectA objectB))
      else (objectA, objectB)
    (afterSpring.1.addForce (gravityDelta objectA objectB),
     afterSpring.2.addForce (-gravityDelta objectA objectB))

/-- Net force increment that the pair (A, B) adds to A's accumulator; B receives
the exact opposite (see `interactPair_eq_addForce`). -/
noncomputable def specPairDelta (objectA objectB : PointMass) : Vec :=
  let distance := objectA.position.distanceTo objectB.position
  if distance = 0 then 0
  else
    (if distance < objectA.radius + objectB.radius then springDelta objectA objectB else 0)
      + gravityDelta objectA objectB

/-- Following the spec's words (§4.1): the net force a body receives is the sum of
the pair contributions from the other bodies. -/
noncomputable def specNetForce (a : PointMass) (others : List PointMass) : Vec :=
  (others.map (specPairDelta a)).sum

/-- The inner `j` loop of `updateObjects` for a fixed `objectA` (source lines
652-702): interact `objectA` with each later body in order, threading the updated
`objectA` through, and return the updated `objectA` together with the updated
later bodies. -/
noncomputable def forceOne : PointMass → List PointMass → PointMass × List PointMass
  | a, [] => (a, [])
  | a, b :: rest =>
    let p := interactPair a b
    let q := forceOne p.1 rest
    (q.1, p.2 :: q.2)

@[simp] theorem forceOne_nil (a : PointMass) : forceOne a [] = (a, []) := rfl

@[simp] theorem forceOne_snd_length (a : PointMass) (bs : List PointMass) :
    (forceOne a bs).2.length = bs.length := by
  induction bs generalizing a with
  | nil => rfl
  | cons b rest ih => simp [forceOne, ih]

/-- The outer `i` loop of `updateObjects` (source lines 650-706) exactly as the
source interleaves it: all pairs involving the first body are processed, the first
body is integrated, and only then does the loop move on to the later bodies. -/
noncomputable def stepInterleaved (timeStep : ℝ) : List PointMass → List PointMass
  | [] => []
  | a :: rest =>
    let p := forceOne a rest
    p.1.updateKinematics timeStep :: stepInterleaved timeStep p.2
termination_by l => l.length
decreasing_by simp

/-- Following the spec's words (§5, §9): the force-accumulation pass on its own,
same pair order as the source but with no body integrated yet. -/
noncomputable def accumulateForces : List PointMass → List PointMass
  | [] => []
  | a :: rest =>
    let p := forceOne a rest
    p.1 :: accumulateForces p.2
termination_by l => l.length
decreasing_by simp

/-- Embedding of the `Simulation` class state read and written by the engine.
Rendering-only state (canvas, context, dirty flag, pixel ratio) and the input
handlers are outside the model. In the source `unlockedObjects` holds references
into `objects`; the shared mutation is modelled by keeping the two lists
consistent explicitly (gather in `updateCaches`, scatter in `updateObjects`). -/
@[ext]
structure Simulation where
  objects : List PointMass
  unlockedObjects : List PointMass
  running : Bool
  updateRollover : ℝ
  updatesPerSecond : ℝ
  timeStep : ℝ
  timestamp : ℝ
  center : Vec
  zoom : ℝ
  rectLeft : ℝ
  rectTop : ℝ
  baseWidth : ℝ
  baseHeight : ℝ

/-- Embedding of `Simulation.prototype.updateCaches` (source lines 629-631). -/
def Simulation.updateCaches (s : Simulation) : Simulation :=
  { s with unlockedObjects := s.objects.filter (fun o => !o.locked) }

/-- Scatter step modelling the reference aliasing between `objects` and
`unlockedObjects`: the updated unlocked bodies are written back into their
slots of the full body list, locked bodies stay in place. -/
def writeBackUnlocked : List PointMass → List PointMass → List PointMass
  | [], _ => []
  | o :: rest, news =>
    if o.locked then o :: writeBackUnlocked rest news
    else
      match news with
      | [] => o :: writeBackUnlocked rest []
      | n :: ns => n :: writeBackUnlocked rest ns

/-- Embedding of `Simulation.prototype.updateObjects` (source lines 633-709):
advance the clock, return early when there is no unlocked body, zero the
accumulators of the unlocked bodies, then run the interleaved pair/integration
loop over them. -/
noncomputable def Simulation.updateObjects (s : Simulation) : Simulation :=
  let s1 := { s with timestamp := s.timestamp + s.timeStep }
  let objects := s1.unlockedObjects
  if objects.isEmpty then s1
  else
    let zeroed := objects.map PointMass.zeroNetForce
    let stepped := stepInterleaved s1.timeStep zeroed
    { s1 with
      unlockedObjects := stepped
      objects := writeBackUnlocked s1.objects stepped }

/-- Following the spec's words (§5, §9): the two-phase variant of `updateObjects`
in which force accumulation fully completes for every body before any body is
integrated (two separated passes over the same pair order). -/
noncomputable def Simulation.updateObjectsTwoPhase (s : Simulation) : Simulation :=
  let s1 := { s with timestamp := s.timestamp + s.timeStep }
  let objects := s1.unlockedObjects
  if objects.isEmpty then s1
  else
    let zeroed := objects.map PointMass.zeroNetForce
    let forced := accumulateForces zeroed
    let integrated := forced.map (fun o => o.updateKinematics s1.timeStep)
    { s1 with
      unlockedObjects := integrated
      objects := writeBackUnlocked s1.objects integrated }

/-- Embedding of `Simulation.prototype.updateTrails` (source lines 711-718). -/
def Simulation.updateTrails (s : Simulation) : Simulation :=
  if s.running then
    { s with objects := s.objects.map (PointMass.addTrailPoint s.timestamp) }
  else
    s

/-- Truncation toward zero, as performed implicitly by JavaScript's `%`. -/
noncomputable def jsTrunc (x : ℝ) : ℤ := if 0 ≤ x then ⌊x⌋ else ⌈x⌉

/-- Embedding of JavaScript's `%` operator (truncating remainder). -/
noncomputable def jsMod (a b : ℝ) : ℝ := a - b * (jsTrunc (a / b) : ℝ)

/-- The scheduler arithmetic of `Simulation.prototype.next` (source lines 604-607):
the number of whole steps to run this tick (`Math.floor`, and a negative count
runs the loop zero times) together with the new fractional rollover. -/
noncomputable def schedSteps (updatesPerSecond updateRollover deltaTimeSeconds : ℝ) : ℕ × ℝ :=
  let stepsToPerform := deltaTimeSeconds * updatesPerSecond + updateRollover
  (⌊stepsToPerform⌋.toNat, jsMod stepsToPerform 1)

/-- Embedding of `Simulation.prototype.next` (source lines 600-615), excluding the
rendering calls (`renderCursor`, `render`) which only touch canvas state. -/
noncomputable def Simulation.next (s : Simulation) (deltaTimeSeconds : ℝ) : Simulation :=
  if s.running then
    let sched := schedSteps s.updatesPerSecond s.updateRollover deltaTimeSeconds
    let s1 := { s with updateRollover := sched.2 }
    (Simulation.updateObjects^[sched.1] s1.updateCaches).updateTrails
  else
    s.updateTrails

/-- Total number of simulation steps executed across a sequence of ticks, folding
the scheduler arithmetic of `next` over the wall-clock deltas. -/
noncomputable def totalSteps (updatesPerSecond : ℝ) : ℝ → List ℝ → ℕ
  | _, [] => 0
  | r, dt :: rest =>
    let sched := schedSteps updatesPerSecond r dt
    sched.1 + totalSteps updatesPerSecond sched.2 rest

/-- The fractional rollover left after a sequence of ticks. -/
noncomputable def finalRollover (updatesPerSecond : ℝ) : ℝ → List ℝ → ℝ
  | r, [] => r
  | r, dt :: rest => finalRollover updatesPerSecond (schedSteps updatesPerSecond r dt).2 rest

/-- Embedding of `Simulation.prototype.getSimulationPointAtScreenPoint`
(source lines 520-531). -/
noncomputable def Simulation.getSimulationPointAtScreenPoint
    (s : Simulation) (clientX clientY : ℝ) : Vec :=
  let canvasX := clientX - s.rectLeft
  let canvasY := clientY - s.rectTop
  let fromCenterX := canvasX - s.baseWidth / 2
  let fromCenterY := canvasY - s.baseHeight / 2
  ⟨s.center.x + fromCenterX / s.zoom, s.center.y + fromCenterY / s.zoom⟩

/-- Embedding of `Simulation.prototype.getSimulationViewport` (source lines 565-576). -/
noncomputable def Simulation.getSimulationViewport (s : Simulation) : Rectangle :=
  let viewportWidth := s.baseWidth / s.zoom
  let viewportHeight := s.baseHeight / s.zoom
  let left := s.center.x - viewportWidth / 2
  let top := s.center.y - viewportHeight / 2
  ⟨left, top, left + viewportWidth, top + viewportHeight⟩

/-- Embedding of `Simulation.prototype.zoomBy` (source lines 499-518). `MAX_ZOOM`
is `Infinity` in the source, so `Math.min(MAX_ZOOM, v)` is `v` and the clamp
reduces to its lower bound; `2 ** zoomAmount` is real exponentiation. -/
noncomputable def Simulation.zoomBy (s : Simulation) (deltaY screenX screenY : ℝ) : Simulation :=
  let point := s.getSimulationPointAtScreenPoint screenX screenY
  let screenDistanceToLeftEdge := screenX - s.rectLeft
  let screenDistanceToTop := screenY - s.rectTop
  let MIN_ZOOM : ℝ := 0.000001
  let ZOOM_SPEED : ℝ := 0.01
  let zoomAmount := -deltaY * ZOOM_SPEED
  let s1 := { s with zoom := max MIN_ZOOM (s.zoom * (2 : ℝ) ^ zoomAmount) }
  let newViewport := s1.getSimulationViewport
  let newSimulationLeftEdge := point.x - screenDistanceToLeftEdge / s1.zoom
  let newSimulationTop := point.y - screenDistanceToTop / s1.zoom
  { s1 with
    center := ⟨newSimulationLeftEdge + newViewport.width / 2,
               newSimulationTop + newViewport.height / 2⟩ }

/-- Embedding of `Simulation.prototype.addObject` (source lines 587-593).
JavaScript compares bodies by reference identity; following the spec (§9) the
identity is modelled by an abstract identifier type with decidable equality.
`none` models the thrown `Error`, in which case the body set is left unchanged;
otherwise the body is pushed onto the end of the set. -/
def addObject {α : Type} [DecidableEq α] (objects : List α) (object : α) : Option (List α) :=
  if object ∈ objects then none
  else some (objects ++ [object])

/-- The unlocked-body cache is exactly the unlocked bodies of `objects`, in order.
`updateCaches` establishes this, and every step of `updateObjects` preserves it
(the source maintains it by mutating shared references). -/
def CacheConsistent (s : Simulation) : Prop :=
  s.unlockedObjects = s.objects.filter (fun o => !o.locked)

/-! Concrete bodies and simulations used as evaluation inputs. -/

/-- A small free body at the origin (defaults: mass 1, at rest, unlocked) with
radius 1/10. -/
noncomputable def smallBodyA : PointMass := { (default : PointMass) with radius := 1 / 10 }

/-- A locked small body at distance 1 from the origin. -/
noncomputable def smallLockedB : PointMass :=
  { (default : PointMass) with radius := 1 / 10, position := ⟨1, 0⟩, locked := true }

/-- An unlocked copy of `smallLockedB`. -/
noncomputable def smallBodyC : PointMass :=
  { (default : PointMass) with radius := 1 / 10, position := ⟨1, 0⟩ }

/-- First body of a concrete overlapping pair (defaults: mass 1, radius 10). -/
noncomputable def bodyO1 : PointMass := default

/-- Second body of the overlapping pair, one meter away (radii overlap by 19). -/
noncomputable def bodyO2 : PointMass := { (default : PointMass) with position := ⟨1, 0⟩ }

/-- A running camera/scheduler state shared by the evaluation simulations. -/
noncomputable def baseSim : Simulation :=
  { objects := [], unlockedObjects := [], running := true, updateRollover := 0,
    updatesPerSecond := 100, timeStep := 1 / 100, timestamp := 0, center := 0, zoom := 1,
    rectLeft := 0, rectTop := 0, baseWidth := 800, baseHeight := 600 }

/-- A two-body simulation whose second body is locked. -/
noncomputable def simLockedPair : Simulation :=
  { baseSim with objects := [smallBodyA, smallLockedB] }

/-- A two-body simulation with both bodies unlocked and the cache filled. -/
noncomputable def simFreePair : Simulation :=
  { baseSim with
    objects := [smallBodyA, smallBodyC]
    unlockedObjects := [smallBodyA, smallBodyC] }

/-- A three-body simulation whose middle body is locked. -/
noncomputable def simWithLocked : Simulation :=
  { baseSim with objects := [default, { (default : PointMass) with locked := true, position := ⟨1, 0⟩ },
    { (default : PointMass) with position := ⟨2, 0⟩ }] }

/-- A one-body running simulation with an empty trail. -/
noncomputable def simOneBody : Simulation :=
  { baseSim with objects := [default] }

/-- A paused simulation holding one body. -/
noncomputable def simPaused : Simulation :=
  { baseSim with objects := [default], running := false }

/-! Basic projection lemmas for the body-updating operations. -/

@[simp] theorem addForce_mass (p : PointMass) (f : Vec) : (p.addForce f).mass = p.mass := rfl

@[simp] theorem addForce_position (p : PointMass) (f : Vec) :
    (p.addForce f).position = p.position := rfl

@[simp] theorem addForce_velocity (p : PointMass) (f : Vec) :
    (p.addForce f).velocity = p.velocity := rfl

@[simp] theorem addForce_radius (p : PointMass) (f : Vec) : (p.addForce f).radius = p.radius := rfl

@[simp] theorem addForce_locked (p : PointMass) (f : Vec) : (p.addForce f).locked = p.locked := rfl

@[simp] theorem addForce_trail (p : PointMass) (f : Vec) : (p.addForce f).trail = p.trail := rfl

@[simp] theorem addForce_netForce (p : PointMass) (f : Vec) :
    (p.addForce f).netForce = p.netForce + f := rfl

theorem addForce_addForce (p : PointMass) (f g : Vec) :
    (p.addForce f).addForce g = p.addForce (f + g) := by
  ext <;> simp [PointMass.addForce] <;> ring

@[simp] theorem addForce_zero (p : PointMass) : p.addForce 0 = p := by
  ext <;> simp [PointMass.addForce]

@[simp] theorem zeroNetForce_mass (p : PointMass) : p.zeroNetForce.mass = p.mass := rfl

@[simp] theorem zeroNetForce_position (p : PointMass) :
    p.zeroNetForce.position = p.position := rfl

@[simp] theorem zeroNetForce_velocity (p : PointMass) :
    p.zeroNetForce.velocity = p.velocity := rfl

@[simp] theorem zeroNetForce_radius (p : PointMass) : p.zeroNetForce.radius = p.radius := rfl

@[simp] theorem zeroNetForce_locked (p : PointMass) : p.zeroNetForce.locked = p.locked := rfl

@[simp] theorem zeroNetForce_netForce (p : PointMass) : p.zeroNetForce.netForce = 0 := rfl

@[simp] theorem updateKinematics_mass (p : PointMass) (ts : ℝ) :
    (p.updateKinematics ts).mass = p.mass := rfl

@[simp] theorem updateKinematics_radius (p : PointMass) (ts : ℝ) :
    (p.updateKinematics ts).radius = p.radius := rfl

@[simp] theorem updateKinematics_locked (p : PointMass) (ts : ℝ) :
    (p.updateKinematics ts).locked = p.locked := rfl

@[simp] theorem updateKinematics_netForce (p : PointMass) (ts : ℝ) :
    (p.updateKinematics ts).netForce = p.netForce := rfl

@[simp] theorem updateKinematics_trail (p : PointMass) (ts : ℝ) :
    (p.updateKinematics ts).trail = p.trail := rfl

@[simp] theorem addTrailPoint_mass (ts : ℝ) (p : PointMass) :
    (PointMass.addTrailPoint ts p).mass = p.mass := rfl

@[simp] theorem addTrailPoint_position (ts : ℝ) (p : PointMass) :
    (PointMass.addTrailPoint ts p).position = p.position := rfl

@[simp] theorem addTrailPoint_velocity (ts : ℝ) (p : PointMass) :
    (PointMass.addTrailPoint ts p).velocity = p.velocity := rfl

@[simp] theorem addTrailPoint_netForce (ts : ℝ) (p : PointMass) :
    (PointMass.addTrailPoint ts p).netForce = p.netForce := rfl

@[simp] theorem addTrailPoint_locked (ts : ℝ) (p : PointMass) :
    (PointMass.addTrailPoint ts p).locked = p.locked := rfl

/-! The pair deltas read only position, mass and radius, so they are unchanged when
either body merely accumulates force or has its accumulator reset. -/

@[simp] theorem springDelta_addForce_left (a b : PointMass) (f : Vec) :
    springDelta (a.addForce f) b = springDelta a b := rfl

@[simp] theorem springDelta_addForce_right (a b : PointMass) (f : Vec) :
    springDelta a (b.addForce f) = springDelta a b := rfl

@[simp] theorem gravityDelta_addForce_left (a b : PointMass) (f : Vec) :
    gravityDelta (a.addForce f) b = gravityDelta a b := rfl

@[simp] theorem gravityDelta_addForce_right (a b : PointMass) (f : Vec) :
    gravityDelta a (b.addForce f) = gravityDelta a b := rfl

@[simp] theorem specPairDelta_addForce_left (a b : PointMass) (f : Vec) :
    specPairDelta (a.addForce f) b = specPairDelta a b := rfl

@[simp] theorem specPairDelta_addForce_right (a b : PointMass) (f : Vec) :
    specPairDelta a (b.addForce f) = specPairDelta a b := rfl

@[simp] theorem specPairDelta_zeroNetForce_left (a b : PointMass) :
    specPairDelta a.zeroNetForce b = specPairDelta a b := rfl

@[simp] theorem specPairDelta_zeroNetForce_right (a b : PointMass) :
    specPairDelta a b.zeroNetForce = specPairDelta a b := rfl

@[simp] theorem specNetForce_nil (a : PointMass) : specNetForce a [] = 0 := rfl

theorem specNetForce_cons (a b : PointMass) (bs : List PointMass) :
    specNetForce a (b :: bs) = specPairDelta a b + specNetForce a bs := by
  simp [specNetForce]

@[simp] theorem specNetForce_addForce_left (a : PointMass) (f : Vec) (bs : List PointMass) :
    specNetForce (a.addForce f) bs = specNetForce a bs := rfl

/-- Each side of `interactPair` is a single accumulation: A gains the pair delta. -/
theorem interactPair_fst (a b : PointMass) :
    (interactPair a b).1 = a.addForce (specPairDelta a b) := by
  simp only [interactPair, specPairDelta]
  split_ifs with h1 h2 <;> simp [addForce_addForce]

/-- Each side of `interactPair` is a single accumulation: B loses the pair delta. -/
theorem interactPair_snd (a b : PointMass) :
    (interactPair a b).2 = b.addForce (-specPairDelta a b) := by
  simp only [interactPair, specPairDelta]
  split_ifs with h1 h2
  · simp
  · show (b.addForce (-springDelta a b)).addForce (-gravityDelta a b)
        = b.addForce (-(springDelta a b + gravityDelta a b))
    rw [addForce_addForce, neg_add]
  · show b.addForce (-gravityDelta a b) = b.addForce (-(0 + gravityDelta a b))
    rw [zero_add]

/-- Closed form of the inner pair loop for the leading body: it accumulates the sum
of the pair deltas against every later body. -/
theorem forceOne_fst (a : PointMass) (bs : List PointMass) :
    (forceOne a bs).1 = a.addForce (specNetForce a bs) := by
  induction bs generalizing a with
  | nil => simp
  | cons b rest ih =>
    simp only [forceOne, ih, interactPair_fst, specNetForce_cons,
      specNetForce_addForce_left, addForce_addForce]

/-- Closed form of the inner pair loop for the later bodies: each loses exactly the
pair delta against the leading body. -/
theorem forceOne_snd (a : PointMass) (bs : List PointMass) :
    (forceOne a bs).2 = bs.map (fun b => b.addForce (-specPairDelta a b)) := by
  induction bs generalizing a with
  | nil => simp
  | cons b rest ih =>
    simp only [forceOne, ih, interactPair_fst, interactPair_snd, List.map_cons,
      List.map_inj_left, specPairDelta_addForce_left]

/-- Unfolding equation for `accumulateForces` at a nonempty list. -/
theorem accumulateForces_cons (a : PointMass) (rest : List PointMass) :
    accumulateForces (a :: rest)
      = (forceOne a rest).1 :: accumulateForces (forceOne a rest).2 := by
  rw [accumulateForces]

/-- Unfolding equation for `stepInterleaved` at a nonempty list. -/
theorem stepInterleaved_cons (ts : ℝ) (a : PointMass) (rest : List PointMass) :
    stepInterleaved ts (a :: rest)
      = (forceOne a rest).1.updateKinematics ts :: stepInterleaved ts (forceOne a rest).2 := by
  rw [stepInterleaved]

/-- The interleaved loop of the source equals the two-phase pass: accumulate all
forces first, then integrate every body. Integration of a body touches only that
body's own position and velocity, which no later pair of the step reads. -/
theorem stepInterleaved_eq_accumulate (ts : ℝ) (xs : List PointMass) :
    stepInterleaved ts xs = (accumulateForces xs).map (fun o => o.updateKinematics ts) := by
  induction xs using accumulateForces.induct with
  | case1 => simp [stepInterleaved, accumulateForces]
  | case2 a rest p ih =>
    have ih2 : stepInterleaved ts (forceOne a rest).2
        = (accumulateForces (forceOne a rest).2).map (fun o => o.updateKinematics ts) := ih
    rw [stepInterleaved_cons, accumulateForces_cons, List.map_cons, ih2]

@[simp] theorem accumulateForces_length (xs : List PointMass) :
    (accumulateForces xs).length = xs.length := by
  induction xs using accumulateForces.induct with
  | case1 => simp [accumulateForces]
  | case2 a rest p ih =>
    have ih2 : (accumulateForces (forceOne a rest).2).length = (forceOne a rest).2.length := ih
    rw [accumulateForces_cons]
    simp [ih2]

@[simp] theorem stepInterleaved_length (ts : ℝ) (xs : List PointMass) :
    (stepInterleaved ts xs).length = xs.length := by
  rw [stepInterleaved_eq_accumulate]; simp

/-- Accumulating forces never changes which bodies are locked. -/
theorem accumulateForces_locked (xs : List PointMass) :
    (accumulateForces xs).map PointMass.locked = xs.map PointMass.locked := by
  induction xs using accumulateForces.induct with
  | case1 => simp [accumulateForces]
  | case2 a rest p ih =>
    have ih2 : (accumulateForces (forceOne a rest).2).map PointMass.locked
        = (forceOne a rest).2.map PointMass.locked := ih
    rw [accumulateForces_cons, List.map_cons, ih2, forceOne_fst, forceOne_snd,
      List.map_map]
    simp [Function.comp]

/-- The full interleaved step never changes which bodies are locked. -/
theorem stepInterleaved_locked (ts : ℝ) (xs : List PointMass) :
    (stepInterleaved ts xs).map PointMass.locked = xs.map PointMass.locked := by
  rw [stepInterleaved_eq_accumulate, List.map_map]
  have : PointMass.locked ∘ (fun o => o.updateKinematics ts) = PointMass.locked := by
    funext o; simp
  rw [this, accumulateForces_locked]

/-- Reading a mapped list at an in-bounds index. -/
theorem getD_map_of_lt {α β : Type} (f : α → β) (l : List α) (n : ℕ)
    (hn : n < l.length) (d : β) (d' : α) : (l.map f).getD n d = f (l.getD n d') := by
  induction l generalizing n with
  | nil => simp at hn
  | cons a rest ih =>
    cases n with
    | zero => simp
    | succ m => simpa using ih m (by simpa using hn)

/-! Geometry of the distance function and of the spring force. -/

theorem distanceTo_comm (v w : Vec) : v.distanceTo w = w.distanceTo v := by
  unfold Vec.distanceTo
  rw [show (v.x - w.x) ^ 2 + (v.y - w.y) ^ 2 = (w.x - v.x) ^ 2 + (w.y - v.y) ^ 2 from by ring]

theorem distanceTo_nonneg (v w : Vec) : 0 ≤ v.distanceTo w := Real.sqrt_nonneg _

theorem distanceTo_eq_zero_iff (v w : Vec) : v.distanceTo w = 0 ↔ v = w := by
  unfold Vec.distanceTo
  rw [Real.sqrt_eq_zero (by positivity)]
  constructor
  · intro h
    have hx : (v.x - w.x) ^ 2 = 0 := by nlinarith [sq_nonneg (v.x - w.x), sq_nonneg (v.y - w.y)]
    have hy : (v.y - w.y) ^ 2 = 0 := by nlinarith [sq_nonneg (v.x - w.x), sq_nonneg (v.y - w.y)]
    have hx0 : v.x - w.x = 0 := (pow_eq_zero_iff two_ne_zero).mp hx
    have hy0 : v.y - w.y = 0 := (pow_eq_zero_iff two_ne_zero).mp hy
    ext
    · linarith
    · linarith
  · rintro rfl
    simp

theorem sin_atan2 (y x : ℝ) : Real.sin (atan2 y x) = y / Real.sqrt (x ^ 2 + y ^ 2) := by
  unfold atan2
  rw [Complex.sin_arg, Complex.abs_apply, Complex.normSq_mk,
    show x * x + y * y = x ^ 2 + y ^ 2 from by ring]

theorem cos_atan2 (y x : ℝ) (h : Real.sqrt (x ^ 2 + y ^ 2) ≠ 0) :
    Real.cos (atan2 y x) = x / Real.sqrt (x ^ 2 + y ^ 2) := by
  unfold atan2
  have hz : (⟨x, y⟩ : ℂ) ≠ 0 := by
    intro hc
    apply h
    have hx : x = 0 := congrArg Complex.re hc
    have hy : y = 0 := congrArg Complex.im hc
    rw [hx, hy]
    simp
  rw [Complex.cos_arg hz, Complex.abs_apply, Complex.normSq_mk,
    show x * x + y * y = x ^ 2 + y ^ 2 from by ring]

/-- Closed form of the spring force on A: magnitude `min(mA, mB) * penetration`
along the unit vector pointing from B toward A. -/
theorem springDelta_eq (a b : PointMass) (hd : a.position.distanceTo b.position ≠ 0) :
    springDelta a b =
      ⟨min a.mass b.mass * (a.radius + b.radius - a.position.distanceTo b.position)
          * (a.position.x - b.position.x) / a.position.distanceTo b.position,
        min a.mass b.mass * (a.radius + b.radius - a.position.distanceTo b.position)
          * (a.position.y - b.position.y) / a.position.distanceTo b.position⟩ := by
  have hsq : Real.sqrt ((-(b.position.x - a.position.x)) ^ 2
      + (-(b.position.y - a.position.y)) ^ 2) = a.position.distanceTo b.position := by
    unfold Vec.distanceTo
    rw [show (-(b.position.x - a.position.x)) ^ 2 + (-(b.position.y - a.position.y)) ^ 2
      = (a.position.x - b.position.x) ^ 2 + (a.position.y - b.position.y) ^ 2 from by ring]
  have hne : Real.sqrt ((-(b.position.x - a.position.x)) ^ 2
      + (-(b.position.y - a.position.y)) ^ 2) ≠ 0 := by rw [hsq]; exact hd
  unfold springDelta
  ext
  · show min a.mass b.mass * (1 * (a.radius + b.radius - a.position.distanceTo b.position))
        * Real.cos (atan2 (-(b.position.y - a.position.y)) (-(b.position.x - a.position.x))) = _
    rw [cos_atan2 _ _ hne, hsq]
    ring
  · show min a.mass b.mass * (1 * (a.radius + b.radius - a.position.distanceTo b.position))
        * Real.sin (atan2 (-(b.position.y - a.position.y)) (-(b.position.x - a.position.x))) = _
    rw [sin_atan2, hsq]
    ring

/-- Newton's third law for the spring part of a pair. -/
theorem springDelta_comm (a b : PointMass) (hd : a.position.distanceTo b.position ≠ 0) :
    springDelta b a = -springDelta a b := by
  have hd' : b.position.distanceTo a.position ≠ 0 := by rw [distanceTo_comm]; exact hd
  rw [springDelta_eq a b hd, springDelta_eq b a hd']
  ext
  · show min b.mass a.mass * (b.radius + a.radius - b.position.distanceTo a.position)
        * (b.position.x - a.position.x) / b.position.distanceTo a.position = _
    rw [distanceTo_comm b.position a.position, min_comm b.mass a.mass,
      add_comm b.radius a.radius]
    simp
    ring
  · show min b.mass a.mass * (b.radius + a.radius - b.position.distanceTo a.position)
        * (b.position.y - a.position.y) / b.position.distanceTo a.position = _
    rw [distanceTo_comm b.position a.position, min_comm b.mass a.mass,
      add_comm b.radius a.radius]
    simp
    ring

/-- Newton's third law for the gravity part of a pair. -/
theorem gravityDelta_comm (a b : PointMass) : gravityDelta b a = -gravityDelta a b := by
  unfold gravityDelta
  ext
  · show (a.position.x - b.position.x)
        * (G * b.mass * a.mass / b.position.distanceTo a.position ^ 2)
        / b.position.distanceTo a.position = _
    rw [distanceTo_comm b.position a.position]
    simp
    ring
  · show (a.position.y - b.position.y)
        * (G * b.mass * a.mass / b.position.distanceTo a.position ^ 2)
        / b.position.distanceTo a.position = _
    rw [distanceTo_comm b.position a.position]
    simp
    ring

/-- Newton's third law for the whole pair delta. -/
theorem specPairDelta_comm (a b : PointMass) : specPairDelta b a = -specPairDelta a b := by
  unfold specPairDelta
  rcases eq_or_ne (a.position.distanceTo b.position) 0 with h | h
  · rw [distanceTo_comm b.position a.position]
    rw [if_pos h, if_pos h]
    simp
  · rw [distanceTo_comm b.position a.position, add_comm b.radius a.radius]
    rw [if_neg h, if_neg h]
    split_ifs with h2
    · rw [springDelta_comm a b h, gravityDelta_comm a b, neg_add]
    · rw [gravityDelta_comm a b]
      rw [zero_add, zero_add]

/-- Inserting forces into a list of bodies does not change the net force any fixed
body receives from them. -/
theorem specNetForce_map_addForce (x a : PointMass) (l : List PointMass) :
    specNetForce x (l.map (fun b => b.addForce (-specPairDelta a b))) = specNetForce x l := by
  unfold specNetForce
  rw [List.map_map]
  congr 1

/-- Per-index closed form of the force-accumulation pass: body `i` ends with its
initial accumulator plus the pair deltas against every other body of the list. -/
theorem accumulateForces_getD : ∀ (xs : List PointMass) (i : ℕ), i < xs.length →
    ((accumulateForces xs).getD i default).netForce
      = (xs.getD i default).netForce
        + specNetForce (xs.getD i default) (xs.take i ++ xs.drop (i + 1)) := by
  intro xs
  induction xs using accumulateForces.induct with
  | case1 =>
    intro i hi
    simp at hi
  | case2 a rest p ih =>
    intro i hi
    have ih2 : ∀ j, j < (forceOne a rest).2.length →
        ((accumulateForces (forceOne a rest).2).getD j default).netForce
          = ((forceOne a rest).2.getD j default).netForce
            + specNetForce ((forceOne a rest).2.getD j default)
              ((forceOne a rest).2.take j ++ (forceOne a rest).2.drop (j + 1)) := ih
    cases i with
    | zero =>
      rw [accumulateForces_cons]
      simp [forceOne_fst]
    | succ n =>
      have hn : n < rest.length := by simpa using hi
      rw [accumulateForces_cons]
      simp only [List.getD_cons_succ]
      rw [ih2 n (by simpa using hn)]
      rw [forceOne_snd]
      rw [getD_map_of_lt _ rest n hn _ default]
      have hmap : ((rest.map (fun b => b.addForce (-specPairDelta a b))).take n
            ++ (rest.map (fun b => b.addForce (-specPairDelta a b))).drop (n + 1))
          = (rest.take n ++ rest.drop (n + 1)).map
              (fun b => b.addForce (-specPairDelta a b)) := by
        rw [List.map_append, List.map_take, List.map_drop]
      rw [hmap]
      simp only [addForce_netForce, specNetForce_addForce_left]
      rw [specNetForce_map_addForce]
      rw [List.take_succ_cons, List.drop_succ_cons, List.cons_append, specNetForce_cons,
        specPairDelta_comm]
      abel

/-! Lemmas about the scatter step `writeBackUnlocked`. -/

theorem writeBackUnlocked_cons_locked (o : PointMass) (rest ns : List PointMass)
    (h : o.locked = true) :
    writeBackUnlocked (o :: rest) ns = o :: writeBackUnlocked rest ns := by
  show (if o.locked = true then o :: writeBackUnlocked rest ns
      else match ns with
        | [] => o :: writeBackUnlocked rest []
        | n :: ns' => n :: writeBackUnlocked rest ns') = o :: writeBackUnlocked rest ns
  rw [if_pos h]

theorem writeBackUnlocked_cons_unlocked_nil (o : PointMass) (rest : List PointMass)
    (h : o.locked = false) :
    writeBackUnlocked (o :: rest) [] = o :: writeBackUnlocked rest [] := by
  show (if o.locked = true then o :: writeBackUnlocked rest []
      else match ([] : List PointMass) with
        | [] => o :: writeBackUnlocked rest []
        | n :: ns' => n :: writeBackUnlocked rest ns') = o :: writeBackUnlocked rest []
  rw [if_neg (by simp [h])]

theorem writeBackUnlocked_cons_unlocked_cons (o : PointMass) (rest : List PointMass)
    (n : PointMass) (ns : List PointMass) (h : o.locked = false) :
    writeBackUnlocked (o :: rest) (n :: ns) = n :: writeBackUnlocked rest ns := by
  show (if o.locked = true then o :: writeBackUnlocked rest (n :: ns)
      else match n :: ns with
        | [] => o :: writeBackUnlocked rest []
        | m :: ns' => m :: writeBackUnlocked rest ns') = n :: writeBackUnlocked rest ns
  rw [if_neg (by simp [h])]

@[simp] theorem writeBackUnlocked_length (os : List PointMass) :
    ∀ ns, (writeBackUnlocked os ns).length = os.length := by
  induction os with
  | nil => intro ns; rfl
  | cons o rest ih =>
    intro ns
    rcases Bool.eq_false_or_eq_true o.locked with h | h
    · rw [writeBackUnlocked_cons_locked _ _ _ h]; simp [ih]
    · cases ns with
      | nil => rw [writeBackUnlocked_cons_unlocked_nil _ _ h]; simp [ih]
      | cons n ns' => rw [writeBackUnlocked_cons_unlocked_cons _ _ _ _ h]; simp [ih]

/-- Locked slots are untouched by the write-back. -/
theorem writeBackUnlocked_getD_locked (os : List PointMass) :
    ∀ (ns : List PointMass) (i : ℕ), i < os.length → (os.getD i default).locked = true →
    (writeBackUnlocked os ns).getD i default = os.getD i default := by
  induction os with
  | nil =>
    intro ns i hi hl
    simp at hi
  | cons o rest ih =>
    intro ns i hi hl
    rcases Bool.eq_false_or_eq_true o.locked with h | h
    · rw [writeBackUnlocked_cons_locked _ _ _ h]
      cases i with
      | zero => simp
      | succ m => simpa using ih ns m (by simpa using hi) (by simpa using hl)
    · cases i with
      | zero => exact absurd (by simpa using hl) (by simp [h])
      | succ m =>
        cases ns with
        | nil =>
          rw [writeBackUnlocked_cons_unlocked_nil _ _ h]
          simpa using ih [] m (by simpa using hi) (by simpa using hl)
        | cons n ns' =>
          rw [writeBackUnlocked_cons_unlocked_cons _ _ _ _ h]
          simpa using ih ns' m (by simpa using hi) (by simpa using hl)

/-- When the new bodies are exactly as many as the unlocked slots and are all
unlocked themselves, filtering the written-back list recovers them. -/
theorem writeBackUnlocked_filter (os : List PointMass) :
    ∀ ns, ns.length = (os.filter (fun o => !o.locked)).length →
    (∀ x ∈ ns, x.locked = false) →
    (writeBackUnlocked os ns).filter (fun o => !o.locked) = ns := by
  induction os with
  | nil =>
    intro ns hlen _
    simp at hlen
    subst hlen
    rfl
  | cons o rest ih =>
    intro ns hlen hx
    rcases Bool.eq_false_or_eq_true o.locked with h | h
    · rw [writeBackUnlocked_cons_locked _ _ _ h]
      rw [List.filter_cons_of_neg (by simp [h])]
      rw [List.filter_cons_of_neg (by simp [h])] at hlen
      exact ih ns hlen hx
    · rw [List.filter_cons_of_pos (by simp [h])] at hlen
      cases ns with
      | nil => simp at hlen
      | cons n ns' =>
        rw [writeBackUnlocked_cons_unlocked_cons _ _ _ _ h]
        have hn : n.locked = false := hx n (List.mem_cons_self _ _)
        rw [List.filter_cons_of_pos (by simp [hn])]
        have hlen' : ns'.length = (rest.filter (fun o => !o.locked)).length := by
          simpa using hlen
        rw [ih ns' hlen' (fun x hxm => hx x (List.mem_cons_of_mem _ hxm))]

/-! Step-level invariants of the simulation state. -/

theorem updateCaches_cacheConsistent (s : Simulation) : CacheConsistent s.updateCaches := rfl

theorem mem_filter_locked_false {x : PointMass} {os : List PointMass}
    (hx : x ∈ os.filter (fun o => !o.locked)) : x.locked = false := by
  have := (List.mem_filter.mp hx).2
  simpa using this

theorem forall_locked_false_of_map_eq {ys xs : List PointMass}
    (hmap : ys.map PointMass.locked = xs.map PointMass.locked)
    (hxs : ∀ x ∈ xs, x.locked = false) : ∀ y ∈ ys, y.locked = false := by
  intro y hy
  have hmem : y.locked ∈ ys.map PointMass.locked := List.mem_map_of_mem _ hy
  rw [hmap] at hmem
  rcases List.mem_map.mp hmem with ⟨x, hxm, hxe⟩
  rw [← hxe]
  exact hxs x hxm

@[simp] theorem updateObjects_running (s : Simulation) :
    s.updateObjects.running = s.running := by
  simp only [Simulation.updateObjects]
  split <;> rfl

@[simp] theorem updateObjects_timeStep (s : Simulation) :
    s.updateObjects.timeStep = s.timeStep := by
  simp only [Simulation.updateObjects]
  split <;> rfl

@[simp] theorem updateObjects_objects_length (s : Simulation) :
    s.updateObjects.objects.length = s.objects.length := by
  simp only [Simulation.updateObjects]
  split
  · rfl
  · simp

theorem updateObjects_cacheConsistent (s : Simulation) (h : CacheConsistent s) :
    CacheConsistent s.updateObjects := by
  unfold CacheConsistent
  simp only [Simulation.updateObjects]
  split
  · exact h
  · have hzero : (s.unlockedObjects.map PointMass.zeroNetForce).map PointMass.locked
        = s.unlockedObjects.map PointMass.locked := by
      rw [List.map_map]
      rfl
    have hcache : ∀ x ∈ s.unlockedObjects, x.locked = false := by
      intro x hx
      rw [h] at hx
      exact mem_filter_locked_false hx
    have hstep : ∀ y ∈ stepInterleaved s.timeStep (s.unlockedObjects.map PointMass.zeroNetForce),
        y.locked = false := by
      apply forall_locked_false_of_map_eq
        ((stepInterleaved_locked _ _).trans hzero) hcache
    have hlen : (stepInterleaved s.timeStep
          (s.unlockedObjects.map PointMass.zeroNetForce)).length
        = (s.objects.filter (fun o => !o.locked)).length := by
      rw [stepInterleaved_length, List.length_map, h]
    exact (writeBackUnlocked_filter s.objects _ hlen hstep).symm

theorem updateObjects_getD_locked (s : Simulation) (i : ℕ)
    (hi : i < s.objects.length) (hl : (s.objects.getD i default).locked = true) :
    s.updateObjects.objects.getD i default = s.objects.getD i default := by
  simp only [Simulation.updateObjects]
  split
  · rfl
  · exact writeBackUnlocked_getD_locked s.objects _ i hi hl

/-- A whole burst of steps preserves the cache invariant, the body count, and
every locked body's state. -/
theorem iterate_updateObjects_invariant (s : Simulation) (h : CacheConsistent s) (n : ℕ) :
    CacheConsistent (Simulation.updateObjects^[n] s) ∧
    (Simulation.updateObjects^[n] s).objects.length = s.objects.length ∧
    ∀ i, i < s.objects.length → (s.objects.getD i default).locked = true →
      (Simulation.updateObjects^[n] s).objects.getD i default = s.objects.getD i default := by
  induction n with
  | zero => exact ⟨h, rfl, fun i _ _ => rfl⟩
  | succ m ih =>
    rcases ih with ⟨hc, hlen, hfix⟩
    rw [Function.iterate_succ_apply']
    refine ⟨updateObjects_cacheConsistent _ hc, by rw [updateObjects_objects_length, hlen], ?_⟩
    intro i hi hl
    have hfi := hfix i hi hl
    have hstep := updateObjects_getD_locked (Simulation.updateObjects^[m] s) i
      (by rw [hlen]; exact hi) (by rw [hfi]; exact hl)
    rw [hstep, hfi]

/-! Scheduler arithmetic. -/

theorem jsMod_one_of_nonneg (s : ℝ) (hs : 0 ≤ s) : jsMod s 1 = Int.fract s := by
  unfold jsMod jsTrunc
  rw [div_one, if_pos hs, one_mul]
  rfl

/-- One tick of the scheduler conserves the step count: whole part plus new
rollover equals the incoming fractional step total, and the rollover stays
in `[0, 1)`. -/
theorem schedSteps_spec (ups r dt : ℝ) (hups : 0 ≤ ups) (hr : 0 ≤ r) (hdt : 0 ≤ dt) :
    ((schedSteps ups r dt).1 : ℝ) + (schedSteps ups r dt).2 = dt * ups + r ∧
    0 ≤ (schedSteps ups r dt).2 ∧ (schedSteps ups r dt).2 < 1 := by
  have hs : 0 ≤ dt * ups + r := add_nonneg (mul_nonneg hdt hups) hr
  unfold schedSteps
  refine ⟨?_, ?_, ?_⟩
  · show (⌊dt * ups + r⌋.toNat : ℝ) + jsMod (dt * ups + r) 1 = dt * ups + r
    rw [jsMod_one_of_nonneg _ hs]
    have hcast : ((⌊dt * ups + r⌋.toNat : ℤ) : ℝ) = ((⌊dt * ups + r⌋ : ℤ) : ℝ) := by
      rw [Int.toNat_of_nonneg (Int.floor_nonneg.mpr hs)]
    have : (⌊dt * ups + r⌋.toNat : ℝ) = ((⌊dt * ups + r⌋ : ℤ) : ℝ) := by
      exact_mod_cast hcast
    rw [this, Int.fract]
    ring
  · show 0 ≤ jsMod (dt * ups + r) 1
    rw [jsMod_one_of_nonneg _ hs]
    exact Int.fract_nonneg _
  · show jsMod (dt * ups + r) 1 < 1
    rw [jsMod_one_of_nonneg _ hs]
    exact Int.fract_lt_one _

/-- Folding the scheduler over a run of ticks conserves the exact step total and
keeps the rollover in `[0, 1)`. -/
theorem totalSteps_add_finalRollover (ups : ℝ) (hups : 0 ≤ ups) :
    ∀ (deltas : List ℝ) (r : ℝ), (∀ d ∈ deltas, 0 ≤ d) → 0 ≤ r → r < 1 →
    (totalSteps ups r deltas : ℝ) + finalRollover ups r deltas = ups * deltas.sum + r ∧
    0 ≤ finalRollover ups r deltas ∧ finalRollover ups r deltas < 1 := by
  intro deltas
  induction deltas with
  | nil =>
    intro r _ hr0 hr1
    refine ⟨?_, hr0, hr1⟩
    show ((0 : ℕ) : ℝ) + r = ups * ([] : List ℝ).sum + r
    simp
  | cons dt rest ih =>
    intro r hd hr0 hr1
    have hdt : 0 ≤ dt := hd dt (List.mem_cons_self _ _)
    obtain ⟨hstep, hrr0, hrr1⟩ := schedSteps_spec ups r dt hups hr0 hdt
    obtain ⟨hsum, hf0, hf1⟩ := ih (schedSteps ups r dt).2
      (fun d hm => hd d (List.mem_cons_of_mem _ hm)) hrr0 hrr1
    refine ⟨?_, hf0, hf1⟩
    show (((schedSteps ups r dt).1 + totalSteps ups (schedSteps ups r dt).2 rest : ℕ) : ℝ)
        + finalRollover ups (schedSteps ups r dt).2 rest = ups * (dt :: rest).sum + r
    push_cast
    rw [List.sum_cons]
    have : (totalSteps ups (schedSteps ups r dt).2 rest : ℝ)
        + finalRollover ups (schedSteps ups r dt).2 rest
        = ups * rest.sum + (schedSteps ups r dt).2 := hsum
    nlinarith [hstep, this]

/-! Unfolding lemmas for `next` and `updateTrails`. -/

theorem next_of_running (s : Simulation) (dt : ℝ) (h : s.running = true) :
    s.next dt
      = (Simulation.updateObjects^[(schedSteps s.updatesPerSecond s.updateRollover dt).1]
          ({ s with
            updateRollover := (schedSteps s.updatesPerSecond s.updateRollover dt).2
            }).updateCaches).updateTrails := by
  unfold Simulation.next
  rw [if_pos h]

theorem next_of_paused (s : Simulation) (dt : ℝ) (h : s.running = false) :
    s.next dt = s := by
  unfold Simulation.next
  rw [if_neg (by simp [h])]
  unfold Simulation.updateTrails
  rw [if_neg (by simp [h])]

theorem updateTrails_objects_of_running (s : Simulation) (h : s.running = true) :
    s.updateTrails.objects = s.objects.map (PointMass.addTrailPoint s.timestamp) := by
  unfold Simulation.updateTrails
  rw [if_pos h]

theorem iterate_updateObjects_running (x : Simulation) (n : ℕ) :
    (Simulation.updateObjects^[n] x).running = x.running := by
  induction n with
  | zero => rfl
  | succ m ih => rw [Function.iterate_succ_apply', updateObjects_running, ih]

@[simp] theorem specNetForce_zeroNetForce_left (a : PointMass) (bs : List PointMass) :
    specNetForce a.zeroNetForce bs = specNetForce a bs := rfl

theorem specNetForce_map_zeroNetForce (x : PointMass) (l : List PointMass) :
    specNetForce x (l.map PointMass.zeroNetForce) = specNetForce x l := by
  unfold specNetForce
  rw [List.map_map]
  congr 1

theorem stepInterleaved_nil (ts : ℝ) : stepInterleaved ts [] = [] := by
  rw [stepInterleaved]

/-- Closed form of a step as seen from the unlocked cache: each body ends the step
with exactly the summed pair deltas against the other unlocked bodies. -/
theorem updateObjects_netForce_from_cache (s : Simulation) (i : ℕ)
    (hi : i < s.unlockedObjects.length) :
    (s.updateObjects.unlockedObjects.getD i default).netForce
      = specNetForce (s.unlockedObjects.getD i default)
          (s.unlockedObjects.take i ++ s.unlockedObjects.drop (i + 1)) := by
  simp only [Simulation.updateObjects]
  split
  · next he =>
    exfalso
    rw [List.isEmpty_iff.mp he] at hi
    simp at hi
  · rw [stepInterleaved_eq_accumulate]
    have hl1 : i < (accumulateForces (s.unlockedObjects.map PointMass.zeroNetForce)).length := by
      rw [accumulateForces_length, List.length_map]
      exact hi
    rw [getD_map_of_lt _ _ i hl1 _ default, updateKinematics_netForce]
    rw [accumulateForces_getD _ i (by rw [List.length_map]; exact hi)]
    rw [getD_map_of_lt _ _ i hi _ default]
    rw [zeroNetForce_netForce, specNetForce_zeroNetForce_left, zero_add]
    rw [← List.map_take, ← List.map_drop, ← List.map_append, specNetForce_map_zeroNetForce]

/-- Full characterization of a running tick that schedules zero steps. -/
theorem next_zero_steps_char (s : Simulation) (dt : ℝ) (hrun : s.running = true)
    (h0 : (schedSteps s.updatesPerSecond s.updateRollover dt).1 = 0) :
    s.next dt = { s with
      updateRollover := (schedSteps s.updatesPerSecond s.updateRollover dt).2
      unlockedObjects := s.objects.filter (fun o => !o.locked)
      objects := s.objects.map (PointMass.addTrailPoint s.timestamp) } := by
  rw [next_of_running s dt hrun, h0, Function.iterate_zero_apply]
  simp only [Simulation.updateCaches, Simulation.updateTrails]
  rw [if_pos hrun]

@[simp] theorem updateObjects_updateRollover (s : Simulation) :
    s.updateObjects.updateRollover = s.updateRollover := by
  simp only [Simulation.updateObjects]
  split <;> rfl

theorem iterate_updateObjects_updateRollover (x : Simulation) (n : ℕ) :
    (Simulation.updateObjects^[n] x).updateRollover = x.updateRollover := by
  induction n with
  | zero => rfl
  | succ m ih => rw [Function.iterate_succ_apply', updateObjects_updateRollover, ih]

@[simp] theorem updateTrails_updateRollover (s : Simulation) :
    s.updateTrails.updateRollover = s.updateRollover := by
  unfold Simulation.updateTrails
  split <;> rfl

/-- A running tick stores exactly the scheduler's new rollover; `totalSteps` and
`finalRollover` fold this same scheduler arithmetic over a sequence of ticks. -/
theorem next_updateRollover (s : Simulation) (dt : ℝ) (h : s.running = true) :
    (s.next dt).updateRollover = (schedSteps s.updatesPerSecond s.updateRollover dt).2 := by
  rw [next_of_running s dt h, updateTrails_updateRollover,
    iterate_updateObjects_updateRollover]
  rfl

/-! Claim theorems, witnesses and counterexamples. -/

/-- C2: one interleaved `updateObjects` step produces exactly the same simulation
state as the never-interleaved two-phase version in which force accumulation for
every body fully precedes any integration. -/
theorem updateObjects_eq_twoPhase (s : Simulation) :
    s.updateObjects = s.updateObjectsTwoPhase := by
  simp only [Simulation.updateObjects, Simulation.updateObjectsTwoPhase,
    stepInterleaved_eq_accumulate]

/-- C10: while the simulation is paused (`running = false`), `next` leaves the
whole simulation state unchanged: bodies, trails, clock and rollover included. -/
theorem paused_next_is_noop (s : Simulation) (dt : ℝ) (h : s.running = false) :
    s.next dt = s :=
  next_of_paused s dt h

/-- C10 witness: a concrete paused one-body simulation is untouched by a tick. -/
theorem paused_next_is_noop_witness : simPaused.next 1 = simPaused :=
  paused_next_is_noop simPaused 1 rfl

/-- C9: `addObject` fails (throws, modelled by `none`) exactly when the body is
already present by identity, leaving the set unchanged; otherwise it appends the
body at the end. -/
theorem addObject_duplicate_iff {α : Type} [DecidableEq α] (objects : List α) (object : α) :
    (addObject objects object = none ↔ object ∈ objects) ∧
    (object ∉ objects → addObject objects object = some (objects ++ [object])) := by
  unfold addObject
  split_ifs with h
  · exact ⟨⟨fun _ => h, fun _ => rfl⟩, fun hn => absurd h hn⟩
  · exact ⟨⟨fun hc => absurd hc (by simp), fun hm => absurd hm h⟩, fun _ => rfl⟩

/-- C9 witness: adding a fresh identity appends it; adding a duplicate fails. -/
theorem addObject_duplicate_iff_witness :
    addObject [1, 2] (3 : ℕ) = some [1, 2, 3] ∧ addObject [1, 2] (2 : ℕ) = none :=
  ⟨(addObject_duplicate_iff [1, 2] 3).2 (by decide),
   (addObject_duplicate_iff [1, 2] 2).1.mpr (by decide)⟩

/-- C7: a pair of bodies at coincident positions (distance exactly zero) is
skipped entirely: the pair loop iteration returns both bodies unchanged and the
pair's force contribution is zero, with no division by zero evaluated. -/
theorem coincident_pair_skipped (a b : PointMass)
    (h : a.position.distanceTo b.position = 0) :
    interactPair a b = (a, b) ∧ specPairDelta a b = 0 := by
  constructor
  · simp only [interactPair]
    rw [if_pos h]
  · simp only [specPairDelta]
    rw [if_pos h]

/-- C7 witness: two default bodies sit at the same point and are skipped. -/
theorem coincident_pair_skipped_witness :
    interactPair default default = (default, default) ∧
    specPairDelta default default = 0 :=
  coincident_pair_skipped default default ((distanceTo_eq_zero_iff _ _).mpr rfl)

/-- C6: zooming about any screen anchor preserves the simulation point under the
anchor: `getSimulationPointAtScreenPoint` returns the same point before and after
`zoomBy`, clamping at `MIN_ZOOM` included. -/
theorem zoom_preserves_anchor (s : Simulation) (d x y : ℝ) (hz : 0 < s.zoom) :
    (s.zoomBy d x y).getSimulationPointAtScreenPoint x y
      = s.getSimulationPointAtScreenPoint x y := by
  have hz' : (max 0.000001 (s.zoom * (2 : ℝ) ^ (-d * 0.01))) ≠ 0 :=
    ne_of_gt (lt_of_lt_of_le (by norm_num) (le_max_left _ _))
  simp only [Simulation.zoomBy, Simulation.getSimulationPointAtScreenPoint,
    Simulation.getSimulationViewport, Rectangle.width, Rectangle.height]
  ext
  · field_simp
    ring
  · field_simp
    ring

/-- C6 witness: anchor preservation at a concrete camera state and wheel delta. -/
theorem zoom_preserves_anchor_witness :
    (baseSim.zoomBy 100 5 7).getSimulationPointAtScreenPoint 5 7
      = baseSim.getSimulationPointAtScreenPoint 5 7 :=
  zoom_preserves_anchor baseSim 100 5 7 (by norm_num [baseSim])

/-- C5: with 100 updates per second, any sequence of non-negative wall-clock
deltas summing to exactly one second executes exactly 100 simulation steps in
total, for any starting rollover in `[0, 1)` and regardless of the chunking. -/
theorem scheduler_no_drift (deltas : List ℝ) (r : ℝ) (hd : ∀ d ∈ deltas, 0 ≤ d)
    (hsum : deltas.sum = 1) (hr0 : 0 ≤ r) (hr1 : r < 1) :
    totalSteps 100 r deltas = 100 := by
  obtain ⟨heq, hfr0, hfr1⟩ :=
    totalSteps_add_finalRollover 100 (by norm_num) deltas r hd hr0 hr1
  rw [hsum, mul_one] at heq
  have h99 : (99 : ℝ) < (totalSteps 100 r deltas : ℝ) := by linarith
  have h101 : ((totalSteps 100 r deltas : ℝ)) < 101 := by linarith
  have h99n : 99 < totalSteps 100 r deltas := by exact_mod_cast h99
  have h101n : totalSteps 100 r deltas < 101 := by exact_mod_cast h101
  omega

/-- C5 witness: one whole second delivered in a single tick runs 100 steps. -/
theorem scheduler_no_drift_witness : totalSteps 100 0 [1] = 100 :=
  scheduler_no_drift [1] 0
    (by intro d hdm; rw [List.mem_singleton] at hdm; rw [hdm]; norm_num)
    (by simp) le_rfl (by norm_num)

theorem magnitude_mk (x y : ℝ) : (⟨x, y⟩ : Vec).magnitude = Real.sqrt (x ^ 2 + y ^ 2) := rfl

theorem smallPair_distance : smallBodyA.position.distanceTo smallLockedB.position = 1 := by
  show Real.sqrt (((0 : ℝ) - 1) ^ 2 + ((0 : ℝ) - 0) ^ 2) = 1
  rw [show ((0 : ℝ) - 1) ^ 2 + ((0 : ℝ) - 0) ^ 2 = 1 from by norm_num, Real.sqrt_one]

theorem overlapPair_distance : bodyO1.position.distanceTo bodyO2.position = 1 := by
  show Real.sqrt (((0 : ℝ) - 1) ^ 2 + ((0 : ℝ) - 0) ^ 2) = 1
  rw [show ((0 : ℝ) - 1) ^ 2 + ((0 : ℝ) - 0) ^ 2 = 1 from by norm_num, Real.sqrt_one]

/-- C1 counterexample: `updateCaches` followed by one `updateObjects` step leaves
the unlocked body of `simLockedPair` with zero net force, although the claim
demands the (nonzero) gravitational contribution of the locked body. -/
theorem forces_from_locked_cex :
    ((simLockedPair.updateCaches.updateObjects).unlockedObjects.getD 0 default).netForce = 0 ∧
    specNetForce smallBodyA [smallLockedB] ≠ 0 := by
  have hcache : simLockedPair.updateCaches.unlockedObjects = [smallBodyA] := by
    show List.filter (fun o => !o.locked) [smallBodyA, smallLockedB] = [smallBodyA]
    rw [List.filter_cons_of_pos (by rfl), List.filter_cons_of_neg (by simp [smallLockedB]),
      List.filter_nil]
  constructor
  · rw [updateObjects_netForce_from_cache _ 0 (by rw [hcache]; norm_num), hcache]
    rfl
  · have hgrav : gravityDelta smallBodyA smallLockedB = ⟨G, 0⟩ := by
      simp only [gravityDelta]
      rw [smallPair_distance]
      ext
      · show (smallLockedB.position.x - smallBodyA.position.x)
            * (G * smallBodyA.mass * smallLockedB.mass / 1 ^ 2) / 1 = G
        show ((1 : ℝ) - 0) * (G * 1 * 1 / 1 ^ 2) / 1 = G
        ring
      · show (smallLockedB.position.y - smallBodyA.position.y)
            * (G * smallBodyA.mass * smallLockedB.mass / 1 ^ 2) / 1 = 0
        show ((0 : ℝ) - 0) * (G * 1 * 1 / 1 ^ 2) / 1 = 0
        ring
    have hval : specNetForce smallBodyA [smallLockedB] = ⟨G, 0⟩ := by
      simp only [specNetForce, List.map_cons, List.map_nil, List.sum_cons, List.sum_nil,
        add_zero]
      simp only [specPairDelta]
      rw [if_neg (by rw [smallPair_distance]; norm_num)]
      rw [if_neg (by
        rw [smallPair_distance]
        show ¬((1 : ℝ) < 1 / 10 + 1 / 10)
        norm_num)]
      rw [zero_add, hgrav]
    rw [hval]
    intro hc
    have hx : G = (0 : ℝ) := congrArg Vec.x hc
    norm_num [G] at hx

/-- C1 (amended): during a step, forces are accumulated only among the unlocked
bodies: each unlocked body ends the step with exactly the summed pair
contributions of the *other unlocked* bodies, so locked bodies neither receive
nor exert force. -/
theorem forces_only_from_unlocked (s : Simulation) (i : ℕ)
    (hi : i < s.unlockedObjects.length) :
    (s.updateObjects.unlockedObjects.getD i default).netForce
      = specNetForce (s.unlockedObjects.getD i default)
          (s.unlockedObjects.take i ++ s.unlockedObjects.drop (i + 1)) :=
  updateObjects_netForce_from_cache s i hi

/-- C1 witness: the first of two unlocked bodies receives exactly the pair
contribution of the second. -/
theorem forces_only_from_unlocked_witness :
    (simFreePair.updateObjects.unlockedObjects.getD 0 default).netForce
      = specNetForce (simFreePair.unlockedObjects.getD 0 default)
          (simFreePair.unlockedObjects.take 0 ++ simFreePair.unlockedObjects.drop 1) :=
  forces_only_from_unlocked simFreePair 0 (by simp [simFreePair])

/-- C3: a locked body's position and velocity are never changed by a tick,
whatever wall-clock delta is supplied and however the unlocked bodies move. -/
theorem locked_body_frozen_under_next (s : Simulation) (dt : ℝ) (i : ℕ)
    (hi : i < s.objects.length) (hl : (s.objects.getD i default).locked = true) :
    ((s.next dt).objects.getD i default).position = (s.objects.getD i default).position ∧
    ((s.next dt).objects.getD i default).velocity = (s.objects.getD i default).velocity := by
  rcases Bool.eq_false_or_eq_true s.running with hr | hr
  · rw [next_of_running s dt hr]
    have key : ∀ t : Simulation, t.objects = s.objects → t.running = true → CacheConsistent t →
        ∀ n : ℕ,
        (((Simulation.updateObjects^[n] t).updateTrails).objects.getD i default).position
            = (s.objects.getD i default).position ∧
        (((Simulation.updateObjects^[n] t).updateTrails).objects.getD i default).velocity
            = (s.objects.getD i default).velocity := by
      intro t hto htr htc n
      obtain ⟨hc, hlen, hfix⟩ := iterate_updateObjects_invariant t htc n
      rw [hto] at hlen hfix
      have hobj := hfix i hi hl
      have hrunIt : (Simulation.updateObjects^[n] t).running = true := by
        rw [iterate_updateObjects_running]
        exact htr
      rw [updateTrails_objects_of_running _ hrunIt]
      have hlen2 : i < (Simulation.updateObjects^[n] t).objects.length := by
        rw [hlen]
        exact hi
      rw [getD_map_of_lt _ _ i hlen2 _ default, hobj]
      exact ⟨rfl, rfl⟩
    exact key (({ s with
      updateRollover := (schedSteps s.updatesPerSecond s.updateRollover dt).2 }).updateCaches)
      rfl hr (updateCaches_cacheConsistent _) _
  · rw [next_of_paused s dt hr]
    exact ⟨rfl, rfl⟩

/-- C3 witness: in a three-body system whose middle body is locked, a tick leaves
that body's position and velocity untouched. -/
theorem locked_body_frozen_under_next_witness :
    ((simWithLocked.next 1).objects.getD 1 default).position
        = (simWithLocked.objects.getD 1 default).position ∧
    ((simWithLocked.next 1).objects.getD 1 default).velocity
        = (simWithLocked.objects.getD 1 default).velocity :=
  locked_body_frozen_under_next simWithLocked 1 1 (by simp [simWithLocked]) rfl

/-- C4: for an overlapping pair at positive distance, the spring contribution on A
has magnitude `min(mA, mB) * ((rA + rB) - distance)`, points from B toward A
(a positive multiple of A - B), and the pair loop adds it (together with gravity)
to A while subtracting the exact opposite from B. -/
theorem spring_penalty_contribution (a b : PointMass)
    (hd0 : 0 < a.position.distanceTo b.position)
    (hdlt : a.position.distanceTo b.position < a.radius + b.radius)
    (hma : 0 < a.mass) (hmb : 0 < b.mass) :
    (springDelta a b).magnitude
        = min a.mass b.mass * (a.radius + b.radius - a.position.distanceTo b.position) ∧
    (∃ k : ℝ, 0 < k ∧ springDelta a b
        = ⟨k * (a.position.x - b.position.x), k * (a.position.y - b.position.y)⟩) ∧
    (interactPair a b).1 = a.addForce (springDelta a b + gravityDelta a b) ∧
    (interactPair a b).2 = b.addForce (-(springDelta a b + gravityDelta a b)) := by
  have hdn : a.position.distanceTo b.position ≠ 0 := ne_of_gt hd0
  have hmin : 0 < min a.mass b.mass := lt_min hma hmb
  have hpen : 0 < a.radius + b.radius - a.position.distanceTo b.position := by linarith
  have hdelta : specPairDelta a b = springDelta a b + gravityDelta a b := by
    simp only [specPairDelta]
    rw [if_neg hdn, if_pos hdlt]
  refine ⟨?_, ?_, ?_, ?_⟩
  · rw [springDelta_eq a b hdn, magnitude_mk]
    have hd2 : (a.position.x - b.position.x) ^ 2 + (a.position.y - b.position.y) ^ 2
        = (a.position.distanceTo b.position) ^ 2 := by
      unfold Vec.distanceTo
      rw [Real.sq_sqrt (by positivity)]
    have hexp : ∀ X Y k d : ℝ,
        (k * X / d) ^ 2 + (k * Y / d) ^ 2 = k ^ 2 * (X ^ 2 + Y ^ 2) / d ^ 2 := by
      intro X Y k d
      ring
    rw [hexp, hd2]
    rw [show (min a.mass b.mass * (a.radius + b.radius - a.position.distanceTo b.position)) ^ 2
          * (a.position.distanceTo b.position) ^ 2 / (a.position.distanceTo b.position) ^ 2
        = (min a.mass b.mass * (a.radius + b.radius - a.position.distanceTo b.position)) ^ 2
      from by field_simp]
    rw [Real.sqrt_sq (by positivity)]
  · refine ⟨min a.mass b.mass * (a.radius + b.radius - a.position.distanceTo b.position)
        / a.position.distanceTo b.position,
      div_pos (mul_pos hmin hpen) hd0, ?_⟩
    rw [springDelta_eq a b hdn]
    ext
    · show min a.mass b.mass * (a.radius + b.radius - a.position.distanceTo b.position)
          * (a.position.x - b.position.x) / a.position.distanceTo b.position
        = min a.mass b.mass * (a.radius + b.radius - a.position.distanceTo b.position)
          / a.position.distanceTo b.position * (a.position.x - b.position.x)
      ring
    · show min a.mass b.mass * (a.radius + b.radius - a.position.distanceTo b.position)
          * (a.position.y - b.position.y) / a.position.distanceTo b.position
        = min a.mass b.mass * (a.radius + b.radius - a.position.distanceTo b.position)
          / a.position.distanceTo b.position * (a.position.y - b.position.y)
      ring
  · rw [interactPair_fst, hdelta]
  · rw [interactPair_snd, hdelta]

/-- C4 witness: two default bodies one meter apart (radii 10 each) overlap, and
the spring contribution behaves as claimed. -/
theorem spring_penalty_contribution_witness :
    (springDelta bodyO1 bodyO2).magnitude
        = min bodyO1.mass bodyO2.mass
          * (bodyO1.radius + bodyO2.radius - bodyO1.position.distanceTo bodyO2.position) ∧
    (∃ k : ℝ, 0 < k ∧ springDelta bodyO1 bodyO2
        = ⟨k * (bodyO1.position.x - bodyO2.position.x),
           k * (bodyO1.position.y - bodyO2.position.y)⟩) ∧
    (interactPair bodyO1 bodyO2).1
        = bodyO1.addForce (springDelta bodyO1 bodyO2 + gravityDelta bodyO1 bodyO2) ∧
    (interactPair bodyO1 bodyO2).2
        = bodyO2.addForce (-(springDelta bodyO1 bodyO2 + gravityDelta bodyO1 bodyO2)) :=
  spring_penalty_contribution bodyO1 bodyO2
    (by rw [overlapPair_distance]; norm_num)
    (by rw [overlapPair_distance]; show (1 : ℝ) < 10 + 10; norm_num)
    (by show (0 : ℝ) < 1; norm_num)
    (by show (0 : ℝ) < 1; norm_num)

/-- C8 counterexample: a running tick that schedules zero steps still appends a
trail point to every body, so the trail is not left unchanged. -/
theorem zero_steps_changes_trail_cex :
    (schedSteps simOneBody.updatesPerSecond simOneBody.updateRollover 0).1 = 0 ∧
    ((simOneBody.next 0).objects.getD 0 default).trail
      ≠ (simOneBody.objects.getD 0 default).trail := by
  have h0 : (schedSteps simOneBody.updatesPerSecond simOneBody.updateRollover 0).1 = 0 := by
    show (⌊(0 : ℝ) * 100 + 0⌋).toNat = 0
    norm_num
  refine ⟨h0, ?_⟩
  rw [next_zero_steps_char simOneBody 0 rfl h0]
  intro hceq
  have hlen : (1 : ℕ) = 0 := congrArg (fun t => t.points.length) hceq
  exact absurd hlen (by norm_num)

/-- C8 (amended): a running tick that schedules zero steps leaves every body's
position, velocity and net force and the simulation clock unchanged, but it does
update the rollover accumulator, recompute the unlocked cache, and append one
trail point per body. -/
theorem next_zero_steps_effect (s : Simulation) (dt : ℝ) (hrun : s.running = true)
    (h0 : (schedSteps s.updatesPerSecond s.updateRollover dt).1 = 0) :
    s.next dt = { s with
      updateRollover := (schedSteps s.updatesPerSecond s.updateRollover dt).2
      unlockedObjects := s.objects.filter (fun o => !o.locked)
      objects := s.objects.map (PointMass.addTrailPoint s.timestamp) } :=
  next_zero_steps_char s dt hrun h0

/-- C8 witness: the zero-step tick characterization at a concrete running
simulation and a zero wall-clock delta. -/
theorem next_zero_steps_effect_witness :
    simOneBody.next 0 = { simOneBody with
      updateRollover := (schedSteps simOneBody.updatesPerSecond simOneBody.updateRollover 0).2
      unlockedObjects := simOneBody.objects.filter (fun o => !o.locked)
      objects := simOneBody.objects.map (PointMass.addTrailPoint simOneBody.timestamp) } :=
  next_zero_steps_effect simOneBody 0 rfl (by show (⌊(0 : ℝ) * 100 + 0⌋).toNat = 0; norm_num)

end Orbits
